import Mathlib

/-!
A shallow embedding of the `loadingcache` Go package (`cache.go`).

The Go map `map[interface{}]*cacheEntry` is modelled as an association list with
distinct keys; Go map iteration order is unspecified, so the model fixes one
order (list order, oldest binding first).  `time.Time` is modelled as `Nat`;
`t1.Before(t2)` is `t1 < t2`.  Each public operation receives the clock reading
`now` as an explicit argument (the clock is treated as constant for the duration
of one operation).  All operations execute under the engine lock in the source,
so the model is a sequential state transformer.

Two ghost logs are added to the state for specification purposes only:
`evictionLog` records every successful `evict` call with its key, value and
reason, and `notifications` records every `RemovalNotification` constructed and
dispatched to the registered listeners (the source builds one notification per
eviction and delivers it to every listener, blocking until all complete).
-/

namespace LoadingCache

/-- Removal reasons, mirroring the `RemovalReason` constants of `cache.go`
(`EXPLICIT`, `REPLACED`, `EXPIRED`, `SIZE`). -/
inductive RemovalReason where
  | explicitRemoval
  | replaced
  | expired
  | size
deriving DecidableEq, Repr

/-- Mirrors `cacheEntry`: key, value, last-read and last-write timestamps. -/
structure CacheEntry (K V : Type) where
  key : K
  value : V
  lastRead : Nat
  lastWrite : Nat
deriving DecidableEq

/-- Mirrors `RemovalNotification`: a record passed to listeners each time an
entry is removed. -/
structure RemovalNotification (K V : Type) where
  key : K
  value : V
  reason : RemovalReason
deriving DecidableEq

/-- Modelled from the spec: the statistics collector (`internal/stats` package,
spec section 4.4) is not under `src/`; it provides thread-safe counters for
hits, misses, evictions, load successes, load errors, and cumulative load
duration, each supporting increment. -/
structure InternalStats where
  hits : Nat
  misses : Nat
  evictions : Nat
  loadSuccesses : Nat
  loadErrors : Nat
  totalLoadTime : Nat
deriving DecidableEq, Repr

def InternalStats.empty : InternalStats := ⟨0, 0, 0, 0, 0, 0⟩

def InternalStats.hit (s : InternalStats) : InternalStats := { s with hits := s.hits + 1 }

def InternalStats.miss (s : InternalStats) : InternalStats := { s with misses := s.misses + 1 }

def InternalStats.eviction (s : InternalStats) : InternalStats := { s with evictions := s.evictions + 1 }

def InternalStats.loadSuccess (s : InternalStats) : InternalStats := { s with loadSuccesses := s.loadSuccesses + 1 }

def InternalStats.loadError (s : InternalStats) : InternalStats := { s with loadErrors := s.loadErrors + 1 }

def InternalStats.loadTime (s : InternalStats) (d : Nat) : InternalStats := { s with totalLoadTime := s.totalLoadTime + d }

/-- Errors surfaced by `Get`: `ErrKeyNotFound`, or a loader failure wrapped
with the offending key (`errors.Wrapf(err, "failed to load key %v", key)`). -/
inductive CacheError (K : Type) where
  | keyNotFound
  | loadFailure (key : K) (cause : String)
deriving DecidableEq

/-- Mirrors `CacheOptions`.  `Load` is an optional pure loader (`LoadFunc`);
`MaxSize` is the Go `int32`; `RemovalListeners` is abstracted to the number of
registered listeners (the engine only branches on whether it is zero);
`ShardCount` is the Go `int`; `HashCodeFunc` optionally hashes a key to an
`int`.  Durations equal to `0` mean the corresponding feature is disabled. -/
structure CacheOptions (K V : Type) where
  expireAfterWrite : Nat
  expireAfterRead : Nat
  load : Option (K → Except String V)
  maxSize : Int
  listenerCount : Nat
  shardCount : Int
  hashCodeFunc : Option (K → Int)
  backgroundEvictFrequency : Nat

/-- Mirrors `CacheOptions.expiresAfterRead`. -/
def expiresAfterRead {K V : Type} (cfg : CacheOptions K V) : Bool :=
  decide (0 < cfg.expireAfterRead)

/-- Mirrors `CacheOptions.expiresAfterWrite`. -/
def expiresAfterWrite {K V : Type} (cfg : CacheOptions K V) : Bool :=
  decide (0 < cfg.expireAfterWrite)

/-- The mutable state of one `genericCache` shard: the key→entry map plus the
stats counters, together with the two ghost logs described in the header. -/
structure CacheState (K V : Type) where
  data : List (K × CacheEntry K V)
  stats : InternalStats
  evictionLog : List (K × V × RemovalReason)
  notifications : List (RemovalNotification K V)
deriving DecidableEq

def emptyState (K V : Type) : CacheState K V := ⟨[], InternalStats.empty, [], []⟩

variable {K V : Type} [DecidableEq K]

/-- Go map read `g.data[key]`. -/
def lookupKey (k : K) : List (K × CacheEntry K V) → Option (CacheEntry K V)
  | [] => none
  | (k', e) :: rest => if k' = k then some e else lookupKey k rest

/-- Go map write `g.data[key] = e`: replace the existing binding in place, or
append a new one. -/
def assocPut (k : K) (e : CacheEntry K V) : List (K × CacheEntry K V) → List (K × CacheEntry K V)
  | [] => [(k, e)]
  | (k', e') :: rest => if k' = k then (k, e) :: rest else (k', e') :: assocPut k e rest

/-- Go map `delete(g.data, k)`: drop the binding for `k` (keys are unique in a
map, so dropping every binding for `k` is the same operation). -/
def eraseKey (k : K) : List (K × CacheEntry K V) → List (K × CacheEntry K V)
  | [] => []
  | (k', e') :: rest => if k' = k then eraseKey k rest else (k', e') :: eraseKey k rest

/-- The in-place field write `entry.lastRead = now` performed through the map's
entry pointer on a cache hit. -/
def touchLastRead (k : K) (now : Nat) : List (K × CacheEntry K V) → List (K × CacheEntry K V)
  | [] => []
  | (k', e') :: rest =>
    if k' = k then (k', { e' with lastRead := now }) :: touchLastRead k now rest
    else (k', e') :: touchLastRead k now rest

/-- Mirrors `genericCache.isExpired`: expired when the configured duration has
elapsed since last read (resp. last write); `time.Add(d).Before(now)` is the
strict comparison `_ + d < now`. -/
def isExpired (cfg : CacheOptions K V) (now : Nat) (e : CacheEntry K V) : Bool :=
  (expiresAfterRead cfg && decide (e.lastRead + cfg.expireAfterRead < now)) ||
  (expiresAfterWrite cfg && decide (e.lastWrite + cfg.expireAfterWrite < now))

/-- Mirrors `genericCache.evict`: no-op when the key is absent; otherwise
increment the eviction counter, delete the binding, and — only when listeners
are registered — build one notification and deliver it to every listener. -/
def evict (cfg : CacheOptions K V) (g : CacheState K V) (key : K) (reason : RemovalReason) :
    CacheState K V :=
  match lookupKey key g.data with
  | none => g
  | some e =>
    let g' : CacheState K V :=
      { g with stats := g.stats.eviction
               data := eraseKey key g.data
               evictionLog := g.evictionLog ++ [(key, e.value, reason)] }
    if cfg.listenerCount = 0 then g'
    else { g' with notifications := g'.notifications ++ [⟨key, e.value, reason⟩] }

/-- Mirrors `genericCache.internalPut`: when the map is at or above `MaxSize`
(and `MaxSize > 0`), evict whatever entry map iteration yields first (reason
`SIZE`); then store the new entry with both timestamps set to `now`. -/
def internalPut (cfg : CacheOptions K V) (now : Nat) (g : CacheState K V) (key : K) (value : V) :
    CacheState K V :=
  let g' :=
    if 0 < cfg.maxSize ∧ cfg.maxSize ≤ (g.data.length : Int) then
      match g.data with
      | [] => g
      | (k0, _) :: _ => evict cfg g k0 RemovalReason.size
    else g
  { g' with data := assocPut key ⟨key, value, now, now⟩ g'.data }

/-- One step of the expiry scan: the body of the `for key := range g.data`
loop of `preWriteCleanup` / `backgroundEvict`. -/
def evictIfExpired (cfg : CacheOptions K V) (now : Nat) (g : CacheState K V) (k : K) :
    CacheState K V :=
  match lookupKey k g.data with
  | some e => if isExpired cfg now e then evict cfg g k RemovalReason.expired else g
  | none => g

/-- The full expiry scan shared by `preWriteCleanup` and `backgroundEvict`:
iterate over the keys present at the start of the scan, evicting each entry
found expired. -/
def sweepExpired (cfg : CacheOptions K V) (now : Nat) (g : CacheState K V) : CacheState K V :=
  (g.data.map Prod.fst).foldl (evictIfExpired cfg now) g

/-- Mirrors `genericCache.preWriteCleanup`: a no-op when a background evict
goroutine is configured, otherwise a full expiry scan. -/
def preWriteCleanup (cfg : CacheOptions K V) (now : Nat) (g : CacheState K V) : CacheState K V :=
  if 0 < cfg.backgroundEvictFrequency then g else sweepExpired cfg now g

/-- Mirrors `genericCache.Put`: pre-write cleanup, then eviction with reason
`REPLACED` when the key is already bound, then `internalPut`. -/
def Put (cfg : CacheOptions K V) (now : Nat) (g : CacheState K V) (key : K) (value : V) :
    CacheState K V :=
  let g1 := preWriteCleanup cfg now g
  let g2 :=
    if (lookupKey key g1.data).isSome then evict cfg g1 key RemovalReason.replaced else g1
  internalPut cfg now g2 key value

/-- Mirrors `genericCache.load` (the load path, entered under the write lock):
double-check the key, then fall back to the loader if one is configured.  The
clock is constant during one operation, so the recorded load latency is `0`. -/
def load (cfg : CacheOptions K V) (now : Nat) (g : CacheState K V) (key : K) :
    Except (CacheError K) V × CacheState K V :=
  match lookupKey key g.data with
  | some e => (Except.ok e.value, { g with stats := g.stats.hit })
  | none =>
    match cfg.load with
    | none => (Except.error CacheError.keyNotFound, { g with stats := g.stats.miss })
    | some loader =>
      match loader key with
      | Except.error cause =>
        (Except.error (CacheError.loadFailure key cause), { g with stats := g.stats.loadError })
      | Except.ok v =>
        let g' := { g with stats := (g.stats.loadTime 0).loadSuccess }
        (Except.ok v, internalPut cfg now g' key v)

/-- Mirrors `genericCache.Get`: miss → load path; present but expired → evict
with reason `EXPIRED` then load path; otherwise refresh the entry's last-read
timestamp, record a hit, and return the value snapshot. -/
def Get (cfg : CacheOptions K V) (now : Nat) (g : CacheState K V) (key : K) :
    Except (CacheError K) V × CacheState K V :=
  match lookupKey key g.data with
  | none => load cfg now g key
  | some e =>
    if isExpired cfg now e then
      load cfg now (evict cfg g key RemovalReason.expired) key
    else
      (Except.ok e.value, { g with data := touchLastRead key now g.data, stats := g.stats.hit })

/-- Mirrors `genericCache.Invalidate`: plain map deletes of every given key,
with no eviction bookkeeping and no notification. -/
def Invalidate (g : CacheState K V) (key : K) (keys : List K) : CacheState K V :=
  { g with data := keys.foldl (fun d k => eraseKey k d) (eraseKey key g.data) }

/-- Mirrors `genericCache.InvalidateAll`: delete every binding. -/
def InvalidateAll (g : CacheState K V) : CacheState K V :=
  { g with data := [] }

/-- Mirrors `shardedCache`: a list of independently-locked engines, modelled as
a function from shard index to shard state (only indices below `shardCount`
are ever addressed). -/
structure ShardedCache (K V : Type) where
  shardCount : Nat
  hashCode : K → Int
  shards : Nat → CacheState K V

/-- The routing computation `s.HashCodeFunc(key) % len(s.shards)` (Go `%` on
`int` is the truncated remainder, `Int.tmod`).  A negative hash code makes the
Go program panic with an index-out-of-range error; the model totalises with
`Int.toNat` and the routing theorems assume a non-negative hash code. -/
def shardIdx (s : ShardedCache K V) (key : K) : Nat :=
  ((s.hashCode key).tmod (s.shardCount : Int)).toNat

/-- Mirrors `shardedCache.Get`. -/
def shardedGet (cfg : CacheOptions K V) (now : Nat) (s : ShardedCache K V) (key : K) :
    Except (CacheError K) V × ShardedCache K V :=
  let i := shardIdx s key
  let r := Get cfg now (s.shards i) key
  (r.1, { s with shards := Function.update s.shards i r.2 })

/-- Mirrors `shardedCache.Put`. -/
def shardedPut (cfg : CacheOptions K V) (now : Nat) (s : ShardedCache K V) (key : K) (value : V) :
    ShardedCache K V :=
  let i := shardIdx s key
  { s with shards := Function.update s.shards i (Put cfg now (s.shards i) key value) }

/-- One single-key invalidation dispatch `s.shards[hash(k) % n].Invalidate(k)`. -/
def shardedInvalidateOne (s : ShardedCache K V) (k : K) : ShardedCache K V :=
  let i := shardIdx s k
  { s with shards := Function.update s.shards i (Invalidate (s.shards i) k []) }

/-- Mirrors `shardedCache.Invalidate`: the first key, then each additional key,
is dispatched to its own shard independently. -/
def shardedInvalidate (s : ShardedCache K V) (key : K) (keys : List K) : ShardedCache K V :=
  keys.foldl shardedInvalidateOne (shardedInvalidateOne s key)

/-- The result of the constructor: a single engine or a shard router. -/
inductive BuiltCache (K V : Type) where
  | single (g : CacheState K V)
  | sharded (s : ShardedCache K V)

/-- Mirrors `New`: the two `panic` calls of the constructor become `Except.error`
(negative shard count; shard count outside {0, 1} with no hash-code function);
otherwise construction succeeds with empty shard state. -/
def New (o : CacheOptions K V) : Except String (BuiltCache K V) :=
  if o.shardCount < 0 then Except.error "shard count must be non-negative"
  else if o.shardCount = 0 ∨ o.shardCount = 1 then Except.ok (BuiltCache.single (emptyState K V))
  else
    match o.hashCodeFunc with
    | none => Except.error "cannot have a sharded cache without a hashcode function"
    | some h =>
      Except.ok (BuiltCache.sharded ⟨o.shardCount.toNat, h, fun _ => emptyState K V⟩)

/-- A single-shard cache operation, used to speak about sequences of operations
between a `Put` and a later `Get`. -/
inductive Op (K V : Type) where
  | put (t : Nat) (k : K) (v : V)
  | get (t : Nat) (k : K)
  | invalidate (k : K) (ks : List K)
  | invalidateAll

/-- Execute one operation against a single-shard state (the returned value of a
`get` is discarded; only the state matters here). -/
def step (cfg : CacheOptions K V) (g : CacheState K V) : Op K V → CacheState K V
  | Op.put t k v => Put cfg t g k v
  | Op.get t k => (Get cfg t g k).2
  | Op.invalidate k ks => Invalidate g k ks
  | Op.invalidateAll => InvalidateAll g

/-- Execute a sequence of operations. -/
def run (cfg : CacheOptions K V) (g : CacheState K V) (ops : List (Op K V)) : CacheState K V :=
  ops.foldl (step cfg) g

/-- `op` does not explicitly invalidate key `k`. -/
def opSparesKey (k : K) : Op K V → Prop
  | Op.put _ _ _ => True
  | Op.get _ _ => True
  | Op.invalidate k0 ks => k0 ≠ k ∧ k ∉ ks
  | Op.invalidateAll => False

/-! ### Association-list lemmas -/

theorem lookupKey_assocPut_self (k : K) (e : CacheEntry K V) (l : List (K × CacheEntry K V)) :
    lookupKey k (assocPut k e l) = some e := by
  induction l with
  | nil => simp [assocPut, lookupKey]
  | cons p rest ih =>
    obtain ⟨k', e'⟩ := p
    by_cases h : k' = k
    · simp [assocPut, h, lookupKey]
    · simp [assocPut, h, lookupKey, ih]

theorem lookupKey_assocPut_ne (q k : K) (e : CacheEntry K V) (l : List (K × CacheEntry K V))
    (h : q ≠ k) : lookupKey q (assocPut k e l) = lookupKey q l := by
  induction l with
  | nil => simp [assocPut, lookupKey, Ne.symm h]
  | cons p rest ih =>
    obtain ⟨k', e'⟩ := p
    by_cases h1 : k' = k
    · subst h1
      simp [assocPut, lookupKey, Ne.symm h]
    · simp [assocPut, lookupKey, h1, ih]

theorem assocPut_of_lookupKey_none (k : K) (e : CacheEntry K V) (l : List (K × CacheEntry K V))
    (h : lookupKey k l = none) : assocPut k e l = l ++ [(k, e)] := by
  induction l with
  | nil => simp [assocPut]
  | cons p rest ih =>
    obtain ⟨k', e'⟩ := p
    by_cases h1 : k' = k
    · simp [lookupKey, h1] at h
    · simp [lookupKey, h1] at h
      simp [assocPut, h1, ih h]

theorem lookupKey_eraseKey_self (k : K) (l : List (K × CacheEntry K V)) :
    lookupKey k (eraseKey k l) = none := by
  induction l with
  | nil => simp [eraseKey, lookupKey]
  | cons p rest ih =>
    obtain ⟨k', e'⟩ := p
    by_cases h : k' = k
    · simpa [eraseKey, h] using ih
    · simpa [eraseKey, lookupKey, h] using ih

theorem lookupKey_eraseKey_ne (q k : K) (l : List (K × CacheEntry K V)) (h : q ≠ k) :
    lookupKey q (eraseKey k l) = lookupKey q l := by
  induction l with
  | nil => simp [eraseKey]
  | cons p rest ih =>
    obtain ⟨k', e'⟩ := p
    by_cases h1 : k' = k
    · subst h1
      simp [eraseKey, lookupKey, Ne.symm h, ih]
    · simp [eraseKey, lookupKey, h1, ih]

theorem eraseKey_of_lookupKey_none (k : K) (l : List (K × CacheEntry K V))
    (h : lookupKey k l = none) : eraseKey k l = l := by
  induction l with
  | nil => simp [eraseKey]
  | cons p rest ih =>
    obtain ⟨k', e'⟩ := p
    by_cases h1 : k' = k
    · simp [lookupKey, h1] at h
    · simp [lookupKey, h1] at h
      simp [eraseKey, h1, ih h]

theorem lookupKey_touchLastRead_self (k : K) (t : Nat) (l : List (K × CacheEntry K V)) :
    lookupKey k (touchLastRead k t l) =
      (lookupKey k l).map (fun e => { e with lastRead := t }) := by
  induction l with
  | nil => simp [touchLastRead, lookupKey]
  | cons p rest ih =>
    obtain ⟨k', e'⟩ := p
    by_cases h : k' = k
    · simp [touchLastRead, lookupKey, h]
    · simpa [touchLastRead, lookupKey, h] using ih

theorem lookupKey_touchLastRead_ne (q k : K) (t : Nat) (l : List (K × CacheEntry K V))
    (h : q ≠ k) : lookupKey q (touchLastRead k t l) = lookupKey q l := by
  induction l with
  | nil => simp [touchLastRead, lookupKey]
  | cons p rest ih =>
    obtain ⟨k', e'⟩ := p
    by_cases h1 : k' = k
    · subst h1
      simp [touchLastRead, lookupKey, Ne.symm h, ih]
    · simp [touchLastRead, lookupKey, h1, ih]

theorem lookupKey_append_of_none (q : K) (l1 l2 : List (K × CacheEntry K V))
    (h : lookupKey q l1 = none) : lookupKey q (l1 ++ l2) = lookupKey q l2 := by
  induction l1 with
  | nil => simp
  | cons p rest ih =>
    obtain ⟨k', e'⟩ := p
    by_cases h1 : k' = q
    · simp [lookupKey, h1] at h
    · simp [lookupKey, h1] at h
      simpa [lookupKey, h1] using ih h

/-! ### Projection lemmas for `evict` -/

theorem evict_of_absent (cfg : CacheOptions K V) (g : CacheState K V) (k : K) (r : RemovalReason)
    (h : lookupKey k g.data = none) : evict cfg g k r = g := by
  simp [evict, h]

theorem evict_data (cfg : CacheOptions K V) (g : CacheState K V) (k : K) (r : RemovalReason)
    (e : CacheEntry K V) (h : lookupKey k g.data = some e) :
    (evict cfg g k r).data = eraseKey k g.data := by
  simp only [evict, h]
  split <;> rfl

theorem evict_evictionLog (cfg : CacheOptions K V) (g : CacheState K V) (k : K)
    (r : RemovalReason) (e : CacheEntry K V) (h : lookupKey k g.data = some e) :
    (evict cfg g k r).evictionLog = g.evictionLog ++ [(k, e.value, r)] := by
  simp only [evict, h]
  split <;> rfl

theorem evict_stats (cfg : CacheOptions K V) (g : CacheState K V) (k : K) (r : RemovalReason)
    (e : CacheEntry K V) (h : lookupKey k g.data = some e) :
    (evict cfg g k r).stats = g.stats.eviction := by
  simp only [evict, h]
  split <;> rfl

theorem evict_notifications_pos (cfg : CacheOptions K V) (g : CacheState K V) (k : K)
    (r : RemovalReason) (e : CacheEntry K V) (h : lookupKey k g.data = some e)
    (hl : 0 < cfg.listenerCount) :
    (evict cfg g k r).notifications = g.notifications ++ [⟨k, e.value, r⟩] := by
  simp only [evict, h]
  split
  · omega
  · rfl

theorem lookupKey_evict_ne (cfg : CacheOptions K V) (g : CacheState K V) (q k : K)
    (r : RemovalReason) (h : q ≠ k) :
    lookupKey q (evict cfg g k r).data = lookupKey q g.data := by
  rcases hl : lookupKey k g.data with _ | e
  · rw [evict_of_absent cfg g k r hl]
  · rw [evict_data cfg g k r e hl, lookupKey_eraseKey_ne q k g.data h]

theorem lookupKey_foldl_eraseKey (ks : List K) (d : List (K × CacheEntry K V)) (q : K) :
    lookupKey q (ks.foldl (fun d' k' => eraseKey k' d') d) =
      if q ∈ ks then none else lookupKey q d := by
  induction ks generalizing d with
  | nil => simp
  | cons k0 rest ih =>
    simp only [List.foldl_cons]
    rw [ih]
    by_cases hq : q = k0
    · subst hq
      simp [lookupKey_eraseKey_self]
    · simp [lookupKey_eraseKey_ne q k0 d hq, List.mem_cons, hq]

theorem foldl_eraseKey_of_absent (ks : List K) (d : List (K × CacheEntry K V))
    (h : ∀ q ∈ ks, lookupKey q d = none) :
    ks.foldl (fun d' k' => eraseKey k' d') d = d := by
  induction ks generalizing d with
  | nil => simp
  | cons k0 rest ih =>
    simp only [List.foldl_cons]
    rw [eraseKey_of_lookupKey_none k0 d (h k0 (by simp))]
    exact ih d (fun q hq => h q (by simp [hq]))

/-! ### Operation-level helper lemmas -/

theorem isExpired_fresh (cfg : CacheOptions K V) (t : Nat) (k : K) (v : V) :
    isExpired cfg t ⟨k, v, t, t⟩ = false := by
  have h : ∀ d : Nat, ¬ (t + d < t) := by intro d; omega
  simp [isExpired, expiresAfterRead, expiresAfterWrite, h]

theorem lookupKey_internalPut_self (cfg : CacheOptions K V) (t : Nat) (g : CacheState K V)
    (k : K) (v : V) :
    lookupKey k (internalPut cfg t g k v).data = some ⟨k, v, t, t⟩ :=
  lookupKey_assocPut_self k ⟨k, v, t, t⟩ _

theorem Put_absent_eq (cfg : CacheOptions K V) (t : Nat) (g : CacheState K V) (k : K) (v : V)
    (h : lookupKey k (preWriteCleanup cfg t g).data = none) :
    Put cfg t g k v = internalPut cfg t (preWriteCleanup cfg t g) k v := by
  simp [Put, h]

theorem Put_present_eq (cfg : CacheOptions K V) (t : Nat) (g : CacheState K V) (k : K) (v : V)
    (e : CacheEntry K V) (h : lookupKey k (preWriteCleanup cfg t g).data = some e) :
    Put cfg t g k v =
      internalPut cfg t (evict cfg (preWriteCleanup cfg t g) k RemovalReason.replaced) k v := by
  simp [Put, h]

theorem internalPut_no_evict (cfg : CacheOptions K V) (t : Nat) (g : CacheState K V)
    (k : K) (v : V) (h : ¬ (0 < cfg.maxSize ∧ cfg.maxSize ≤ (g.data.length : Int))) :
    internalPut cfg t g k v = { g with data := assocPut k ⟨k, v, t, t⟩ g.data } := by
  simp [internalPut, h]

theorem lookupKey_foldl_evictIfExpired (cfg : CacheOptions K V) (t : Nat) (ks : List K)
    (k : K) (e : CacheEntry K V) (hexp : isExpired cfg t e = false) :
    ∀ g : CacheState K V, lookupKey k g.data = some e →
      lookupKey k ((ks.foldl (evictIfExpired cfg t) g)).data = some e := by
  induction ks with
  | nil => intro g hg; simpa using hg
  | cons k0 rest ih =>
    intro g hg
    simp only [List.foldl_cons]
    apply ih
    by_cases hk : k0 = k
    · subst hk
      simp [evictIfExpired, hg, hexp]
    · rcases h0 : lookupKey k0 g.data with _ | e0
      · simpa [evictIfExpired, h0] using hg
      · by_cases hx : isExpired cfg t e0 = true
        · rw [show evictIfExpired cfg t g k0 = evict cfg g k0 RemovalReason.expired by
            simp [evictIfExpired, h0, hx]]
          rw [lookupKey_evict_ne cfg g k k0 RemovalReason.expired (Ne.symm hk)]
          exact hg
        · simpa [evictIfExpired, h0, hx] using hg

theorem preWriteCleanup_preserves (cfg : CacheOptions K V) (t : Nat) (g : CacheState K V)
    (k : K) (e : CacheEntry K V) (hg : lookupKey k g.data = some e)
    (hexp : isExpired cfg t e = false) :
    lookupKey k (preWriteCleanup cfg t g).data = some e := by
  unfold preWriteCleanup
  split
  · exact hg
  · exact lookupKey_foldl_evictIfExpired cfg t _ k e hexp g hg

/-! ### Sequences of writes, for the size-bound and put-then-get claims -/

/-- A sequence of `Put` operations with a fixed clock reading. -/
def putAll (cfg : CacheOptions K V) (t : Nat) (g : CacheState K V) (kvs : List (K × V)) :
    CacheState K V :=
  kvs.foldl (fun s p => Put cfg t s p.1 p.2) g

/-- The map contents produced by writing `kvs` in order at time `t`. -/
def entriesOf (t : Nat) (kvs : List (K × V)) : List (K × CacheEntry K V) :=
  kvs.map (fun p => (p.1, ⟨p.1, p.2, t, t⟩))

theorem entriesOf_length (t : Nat) (kvs : List (K × V)) :
    (entriesOf (K := K) (V := V) t kvs).length = kvs.length := by
  simp [entriesOf]

theorem lookupKey_entriesOf_none (t : Nat) (kvs : List (K × V)) (k : K)
    (h : k ∉ kvs.map Prod.fst) : lookupKey k (entriesOf t kvs) = none := by
  induction kvs with
  | nil => rfl
  | cons p rest ih =>
    simp only [List.map_cons, List.mem_cons] at h
    push_neg at h
    simp [entriesOf, lookupKey, Ne.symm h.1]
    simpa [entriesOf] using ih h.2

theorem putAll_append (cfg : CacheOptions K V) (t : Nat) (g : CacheState K V)
    (a b : List (K × V)) :
    putAll cfg t g (a ++ b) = putAll cfg t (putAll cfg t g a) b := by
  simp [putAll, List.foldl_append]

theorem isExpired_disabled (cfg : CacheOptions K V) (t : Nat) (e : CacheEntry K V)
    (hw : cfg.expireAfterWrite = 0) (hr : cfg.expireAfterRead = 0) :
    isExpired cfg t e = false := by
  simp [isExpired, expiresAfterRead, expiresAfterWrite, hw, hr]

theorem preWriteCleanup_disabled (cfg : CacheOptions K V) (t : Nat) (g : CacheState K V)
    (hw : cfg.expireAfterWrite = 0) (hr : cfg.expireAfterRead = 0) :
    preWriteCleanup cfg t g = g := by
  have hstep : ∀ (g' : CacheState K V) (k : K), evictIfExpired cfg t g' k = g' := by
    intro g' k
    unfold evictIfExpired
    rcases h0 : lookupKey k g'.data with _ | e0
    · rfl
    · simp [isExpired_disabled cfg t e0 hw hr]
  have hfold : ∀ (ks : List K) (g' : CacheState K V),
      ks.foldl (evictIfExpired cfg t) g' = g' := by
    intro ks
    induction ks with
    | nil => intro g'; rfl
    | cons k0 rest ih => intro g'; simp [List.foldl_cons, hstep, ih]
  unfold preWriteCleanup sweepExpired
  split
  · rfl
  · exact hfold _ g

theorem Put_fresh_disabled (cfg : CacheOptions K V) (t : Nat) (g : CacheState K V)
    (k : K) (v : V) (hw : cfg.expireAfterWrite = 0) (hr : cfg.expireAfterRead = 0)
    (habs : lookupKey k g.data = none)
    (hcap : ¬ (0 < cfg.maxSize ∧ cfg.maxSize ≤ (g.data.length : Int))) :
    Put cfg t g k v = { g with data := g.data ++ [(k, ⟨k, v, t, t⟩)] } := by
  have hpre := preWriteCleanup_disabled cfg t g hw hr
  rw [Put_absent_eq cfg t g k v (by rw [hpre]; exact habs), hpre,
    internalPut_no_evict cfg t g k v hcap, assocPut_of_lookupKey_none k _ g.data habs]

theorem putAll_fresh (cfg : CacheOptions K V) (t : Nat) (N : Nat)
    (hw : cfg.expireAfterWrite = 0) (hr : cfg.expireAfterRead = 0)
    (hmax : cfg.maxSize = (N : Int)) :
    ∀ (kvs : List (K × V)) (g : CacheState K V),
      (∀ p ∈ kvs, lookupKey p.1 g.data = none) →
      (kvs.map Prod.fst).Nodup →
      g.data.length + kvs.length ≤ N →
      putAll cfg t g kvs = { g with data := g.data ++ entriesOf t kvs } := by
  intro kvs
  induction kvs with
  | nil =>
    intro g _ _ _
    simp [putAll, entriesOf]
  | cons p rest ih =>
    intro g hfresh hnodup hlen
    obtain ⟨k0, v0⟩ := p
    have habs : lookupKey k0 g.data = none := hfresh (k0, v0) (by simp)
    have hcap : ¬ (0 < cfg.maxSize ∧ cfg.maxSize ≤ (g.data.length : Int)) := by
      rw [hmax]
      rintro ⟨h1, h2⟩
      simp only [List.length_cons] at hlen
      omega
    have hput := Put_fresh_disabled cfg t g k0 v0 hw hr habs hcap
    have hstep : putAll cfg t g ((k0, v0) :: rest) =
        putAll cfg t (Put cfg t g k0 v0) rest := rfl
    rw [hstep, hput]
    simp only [List.map_cons, List.nodup_cons] at hnodup
    rw [ih { g with data := g.data ++ [(k0, ⟨k0, v0, t, t⟩)] } ?_ hnodup.2 ?_]
    · simp [entriesOf, List.append_assoc]
    · intro q hq
      have h1 : lookupKey q.1 g.data = none := hfresh q (by simp [hq])
      have h2 : q.1 ≠ k0 := by
        intro hc
        exact hnodup.1 (hc ▸ List.mem_map_of_mem Prod.fst hq)
      rw [lookupKey_append_of_none q.1 g.data _ h1]
      simp [lookupKey, Ne.symm h2]
    · simp only [List.length_append, List.length_cons, List.length_nil] at *
      omega

theorem Put_at_capacity (cfg : CacheOptions K V) (t : Nat) (N : Nat) (hN : 0 < N)
    (hw : cfg.expireAfterWrite = 0) (hr : cfg.expireAfterRead = 0)
    (hmax : cfg.maxSize = (N : Int)) (g : CacheState K V)
    (k0 : K) (e0 : CacheEntry K V) (rest : List (K × CacheEntry K V))
    (hdata : g.data = (k0, e0) :: rest) (hglen : g.data.length = N)
    (hrest : lookupKey k0 rest = none)
    (k' : K) (v' : V) (habs : lookupKey k' g.data = none) :
    (Put cfg t g k' v').data = rest ++ [(k', ⟨k', v', t, t⟩)] ∧
    (Put cfg t g k' v').evictionLog = g.evictionLog ++ [(k0, e0.value, RemovalReason.size)] := by
  obtain ⟨d, st, lg, nt⟩ := g
  simp only at hdata habs hglen
  subst hdata
  have hpre := preWriteCleanup_disabled cfg t
    (⟨(k0, e0) :: rest, st, lg, nt⟩ : CacheState K V) hw hr
  have hput := Put_absent_eq cfg t (⟨(k0, e0) :: rest, st, lg, nt⟩ : CacheState K V) k' v'
    (by rw [hpre]; exact habs)
  rw [hput, hpre]
  have hcond : 0 < cfg.maxSize ∧
      cfg.maxSize ≤ (((⟨(k0, e0) :: rest, st, lg, nt⟩ : CacheState K V)).data.length : Int) := by
    rw [hmax]
    simp only [List.length_cons] at hglen ⊢
    omega
  have hev : internalPut cfg t (⟨(k0, e0) :: rest, st, lg, nt⟩ : CacheState K V) k' v' =
      { evict cfg (⟨(k0, e0) :: rest, st, lg, nt⟩ : CacheState K V) k0 RemovalReason.size with
        data := assocPut k' ⟨k', v', t, t⟩
          (evict cfg (⟨(k0, e0) :: rest, st, lg, nt⟩ : CacheState K V) k0
            RemovalReason.size).data } := by
    unfold internalPut
    rw [if_pos hcond]
  rw [hev]
  have hk0 : lookupKey k0 ((⟨(k0, e0) :: rest, st, lg, nt⟩ : CacheState K V)).data = some e0 := by
    simp [lookupKey]
  have hk' : k' ≠ k0 ∧ lookupKey k' rest = none := by
    constructor
    · intro hc
      simp [lookupKey, hc] at habs
    · by_cases hc : k' = k0
      · simp [lookupKey, hc] at habs
      · simpa [lookupKey, Ne.symm hc] using habs
  constructor
  · rw [evict_data cfg _ k0 RemovalReason.size e0 hk0]
    have : eraseKey k0 ((k0, e0) :: rest) = rest := by
      simp [eraseKey, eraseKey_of_lookupKey_none k0 rest hrest]
    simp only [this]
    exact assocPut_of_lookupKey_none k' _ rest hk'.2
  · exact evict_evictionLog cfg _ k0 RemovalReason.size e0 hk0

/-! ### Concrete fixtures used by the witness theorems -/

def noLoaderOptions : CacheOptions Nat Nat := ⟨0, 0, none, 0, 0, 0, none, 0⟩

def failingLoaderOptions : CacheOptions Nat Nat :=
  ⟨0, 0, some (fun _ => Except.error "boom"), 0, 0, 0, none, 0⟩

def writeExpiryOptions : CacheOptions Nat Nat := ⟨5, 0, none, 0, 1, 0, none, 0⟩

def readExpiryOptions : CacheOptions Nat Nat := ⟨0, 5, none, 0, 1, 0, none, 0⟩

def sampleState : CacheState Nat Nat := ⟨[(1, ⟨1, 10, 0, 0⟩)], InternalStats.empty, [], []⟩

/-! ### Claim C2 -/

/-- C2: for a key with no entry and no loader configured, `Get` fails with the
`ErrKeyNotFound` error, a miss is recorded in the stats, and the cache state is
otherwise unchanged (the map in particular). -/
theorem c2_get_absent_no_loader (cfg : CacheOptions K V) (t : Nat) (g : CacheState K V) (k : K)
    (habs : lookupKey k g.data = none) (hload : cfg.load = none) :
    Get cfg t g k =
      (Except.error CacheError.keyNotFound, { g with stats := g.stats.miss }) := by
  simp [Get, load, habs, hload]

/-- Witness for C2 at a concrete input. -/
theorem c2_get_absent_no_loader_witness :
    Get noLoaderOptions 7 (emptyState Nat Nat) 3 =
      (Except.error CacheError.keyNotFound,
        { emptyState Nat Nat with stats := InternalStats.empty.miss }) :=
  c2_get_absent_no_loader noLoaderOptions 7 (emptyState Nat Nat) 3 rfl rfl

/-! ### Claim C6 -/

/-- C6: when the configured loader fails for a key, `Get` propagates an error
wrapping the offending key together with the underlying cause, a load error is
recorded in the stats, and nothing is inserted (the state is otherwise
unchanged). -/
theorem c6_loader_error (cfg : CacheOptions K V) (t : Nat) (g : CacheState K V) (k : K)
    (f : K → Except String V) (c : String)
    (habs : lookupKey k g.data = none) (hload : cfg.load = some f)
    (herr : f k = Except.error c) :
    Get cfg t g k =
      (Except.error (CacheError.loadFailure k c), { g with stats := g.stats.loadError }) := by
  simp [Get, load, habs, hload, herr]

/-- Witness for C6 at a concrete input. -/
theorem c6_loader_error_witness :
    Get failingLoaderOptions 7 (emptyState Nat Nat) 3 =
      (Except.error (CacheError.loadFailure 3 "boom"),
        { emptyState Nat Nat with stats := InternalStats.empty.loadError }) :=
  c6_loader_error failingLoaderOptions 7 (emptyState Nat Nat) 3
    (fun _ => Except.error "boom") "boom" rfl rfl rfl

/-! ### Claim C7 -/

/-- C7: `Invalidate` removes every given key that is present and is a no-op for
absent keys; it never emits a removal notification, never logs an eviction (so
the `EXPLICIT` reason is never emitted), leaves the stats (in particular the
eviction counter) untouched, and leaves entries of other keys unchanged. -/
theorem c7_invalidate_silent (g : CacheState K V) (k : K) (ks : List K) :
    (Invalidate g k ks).stats = g.stats ∧
    (Invalidate g k ks).notifications = g.notifications ∧
    (Invalidate g k ks).evictionLog = g.evictionLog ∧
    (∀ q, (q = k ∨ q ∈ ks) → lookupKey q (Invalidate g k ks).data = none) ∧
    (∀ q, q ≠ k → q ∉ ks → lookupKey q (Invalidate g k ks).data = lookupKey q g.data) ∧
    (lookupKey k g.data = none → (∀ q ∈ ks, lookupKey q g.data = none) →
      Invalidate g k ks = g) := by
  refine ⟨rfl, rfl, rfl, ?_, ?_, ?_⟩
  · intro q hq
    show lookupKey q (ks.foldl (fun d' k' => eraseKey k' d') (eraseKey k g.data)) = none
    rw [lookupKey_foldl_eraseKey]
    rcases hq with hq | hq
    · subst hq
      by_cases hm : q ∈ ks <;> simp [hm, lookupKey_eraseKey_self]
    · simp [hq]
  · intro q hq1 hq2
    show lookupKey q (ks.foldl (fun d' k' => eraseKey k' d') (eraseKey k g.data)) =
      lookupKey q g.data
    rw [lookupKey_foldl_eraseKey]
    simp [hq2, lookupKey_eraseKey_ne q k g.data hq1]
  · intro h1 h2
    show { g with
        data := ks.foldl (fun d' k' => eraseKey k' d') (eraseKey k g.data) } = g
    rw [eraseKey_of_lookupKey_none k g.data h1, foldl_eraseKey_of_absent ks g.data h2]

/-- Witness for C7 at a concrete input. -/
theorem c7_invalidate_silent_witness :
    (Invalidate sampleState 1 [2]).stats = sampleState.stats ∧
    (Invalidate sampleState 1 [2]).notifications = sampleState.notifications ∧
    (Invalidate sampleState 1 [2]).evictionLog = sampleState.evictionLog ∧
    (∀ q, (q = 1 ∨ q ∈ [2]) → lookupKey q (Invalidate sampleState 1 [2]).data = none) ∧
    (∀ q, q ≠ 1 → q ∉ [2] → lookupKey q (Invalidate sampleState 1 [2]).data =
      lookupKey q sampleState.data) ∧
    (lookupKey 1 sampleState.data = none → (∀ q ∈ [2], lookupKey q sampleState.data = none) →
      Invalidate sampleState 1 [2] = sampleState) :=
  c7_invalidate_silent sampleState 1 [2]

/-! ### Eviction-log bookkeeping for the put-then-get claim -/

/-- Between states `g` and `g'` the eviction log only grew, and none of the new
entries concerns key `k`: key `k` was not replaced, expired, or size-evicted in
the meantime. -/
def SpareLog (k : K) (g g' : CacheState K V) : Prop :=
  ∃ d, g'.evictionLog = g.evictionLog ++ d ∧ ∀ x ∈ d, x.1 ≠ k

theorem log_ext_trans {g1 g2 g3 : CacheState K V}
    (h1 : ∃ d, g2.evictionLog = g1.evictionLog ++ d)
    (h2 : ∃ d, g3.evictionLog = g2.evictionLog ++ d) :
    ∃ d, g3.evictionLog = g1.evictionLog ++ d := by
  obtain ⟨d1, hd1⟩ := h1
  obtain ⟨d2, hd2⟩ := h2
  exact ⟨d1 ++ d2, by rw [hd2, hd1, List.append_assoc]⟩

theorem SpareLog.split (k : K) {g g1 g2 : CacheState K V}
    (h1 : ∃ d, g1.evictionLog = g.evictionLog ++ d)
    (h2 : ∃ d, g2.evictionLog = g1.evictionLog ++ d)
    (h : SpareLog k g g2) : SpareLog k g g1 ∧ SpareLog k g1 g2 := by
  obtain ⟨d1, hd1⟩ := h1
  obtain ⟨d2, hd2⟩ := h2
  obtain ⟨d, hd, hk⟩ := h
  have hdd : d1 ++ d2 = d := by
    have h : g.evictionLog ++ (d1 ++ d2) = g.evictionLog ++ d := by
      rw [← List.append_assoc, ← hd1, ← hd2, ← hd]
    exact List.append_cancel_left h
  refine ⟨⟨d1, hd1, ?_⟩, ⟨d2, hd2, ?_⟩⟩
  · intro x hx
    exact hk x (by rw [← hdd]; exact List.mem_append_left d2 hx)
  · intro x hx
    exact hk x (by rw [← hdd]; exact List.mem_append_right d1 hx)

theorem evict_log_ext (cfg : CacheOptions K V) (g : CacheState K V) (k : K) (r : RemovalReason) :
    ∃ d, (evict cfg g k r).evictionLog = g.evictionLog ++ d := by
  rcases hl : lookupKey k g.data with _ | e
  · exact ⟨[], by rw [evict_of_absent cfg g k r hl]; simp⟩
  · exact ⟨[(k, e.value, r)], evict_evictionLog cfg g k r e hl⟩

theorem internalPut_at_cap_eq (cfg : CacheOptions K V) (t : Nat) (g : CacheState K V)
    (k' : K) (v' : V) (hc : 0 < cfg.maxSize ∧ cfg.maxSize ≤ (g.data.length : Int))
    (k0 : K) (e0 : CacheEntry K V) (rest : List (K × CacheEntry K V))
    (hdata : g.data = (k0, e0) :: rest) :
    internalPut cfg t g k' v' =
      { evict cfg g k0 RemovalReason.size with
        data := assocPut k' ⟨k', v', t, t⟩ (evict cfg g k0 RemovalReason.size).data } := by
  simp only [internalPut]
  rw [if_pos hc, hdata]

theorem internalPut_log_ext (cfg : CacheOptions K V) (t : Nat) (g : CacheState K V)
    (k' : K) (v' : V) :
    ∃ d, (internalPut cfg t g k' v').evictionLog = g.evictionLog ++ d := by
  by_cases hc : 0 < cfg.maxSize ∧ cfg.maxSize ≤ (g.data.length : Int)
  · rcases hdata : g.data with _ | ⟨⟨k0, e0⟩, rest⟩
    · refine ⟨[], ?_⟩
      simp only [internalPut]
      rw [if_pos hc, hdata]
      simp
    · rw [internalPut_at_cap_eq cfg t g k' v' hc k0 e0 rest hdata]
      exact evict_log_ext cfg g k0 RemovalReason.size
  · exact ⟨[], by rw [internalPut_no_evict cfg t g k' v' hc]; simp⟩

theorem evictIfExpired_log_ext (cfg : CacheOptions K V) (t : Nat) (g : CacheState K V)
    (k0 : K) : ∃ d, (evictIfExpired cfg t g k0).evictionLog = g.evictionLog ++ d := by
  rcases hl : lookupKey k0 g.data with _ | e0
  · exact ⟨[], by simp [evictIfExpired, hl]⟩
  · by_cases hx : isExpired cfg t e0 = true
    · rw [show evictIfExpired cfg t g k0 = evict cfg g k0 RemovalReason.expired by
        simp [evictIfExpired, hl, hx]]
      exact evict_log_ext cfg g k0 RemovalReason.expired
    · exact ⟨[], by simp [evictIfExpired, hl, hx]⟩

theorem foldl_evictIfExpired_log_ext (cfg : CacheOptions K V) (t : Nat) :
    ∀ (ks : List K) (g : CacheState K V),
      ∃ d, (ks.foldl (evictIfExpired cfg t) g).evictionLog = g.evictionLog ++ d := by
  intro ks
  induction ks with
  | nil => intro g; exact ⟨[], by simp⟩
  | cons k0 rest ih =>
    intro g
    exact log_ext_trans (evictIfExpired_log_ext cfg t g k0) (ih (evictIfExpired cfg t g k0))

theorem preWriteCleanup_log_ext (cfg : CacheOptions K V) (t : Nat) (g : CacheState K V) :
    ∃ d, (preWriteCleanup cfg t g).evictionLog = g.evictionLog ++ d := by
  unfold preWriteCleanup sweepExpired
  split
  · exact ⟨[], by simp⟩
  · exact foldl_evictIfExpired_log_ext cfg t (g.data.map Prod.fst) g

theorem Put_log_ext (cfg : CacheOptions K V) (t : Nat) (g : CacheState K V) (k' : K) (v' : V) :
    ∃ d, (Put cfg t g k' v').evictionLog = g.evictionLog ++ d := by
  have h1 := preWriteCleanup_log_ext cfg t g
  rcases hk : lookupKey k' (preWriteCleanup cfg t g).data with _ | e
  · rw [Put_absent_eq cfg t g k' v' hk]
    exact log_ext_trans h1 (internalPut_log_ext cfg t _ k' v')
  · rw [Put_present_eq cfg t g k' v' e hk]
    exact log_ext_trans h1 (log_ext_trans
      (evict_log_ext cfg _ k' RemovalReason.replaced) (internalPut_log_ext cfg t _ k' v'))

theorem load_hit_eq (cfg : CacheOptions K V) (t : Nat) (g : CacheState K V) (k'' : K)
    (e : CacheEntry K V) (hl : lookupKey k'' g.data = some e) :
    load cfg t g k'' = (Except.ok e.value, { g with stats := g.stats.hit }) := by
  simp [load, hl]

theorem load_miss_eq (cfg : CacheOptions K V) (t : Nat) (g : CacheState K V) (k'' : K)
    (hl : lookupKey k'' g.data = none) (hld : cfg.load = none) :
    load cfg t g k'' =
      (Except.error CacheError.keyNotFound, { g with stats := g.stats.miss }) := by
  simp [load, hl, hld]

theorem load_error_eq (cfg : CacheOptions K V) (t : Nat) (g : CacheState K V) (k'' : K)
    (f : K → Except String V) (c : String) (hl : lookupKey k'' g.data = none)
    (hld : cfg.load = some f) (hf : f k'' = Except.error c) :
    load cfg t g k'' = (Except.error (CacheError.loadFailure k'' c),
      { g with stats := g.stats.loadError }) := by
  simp [load, hl, hld, hf]

theorem load_ok_eq (cfg : CacheOptions K V) (t : Nat) (g : CacheState K V) (k'' : K)
    (f : K → Except String V) (v : V) (hl : lookupKey k'' g.data = none)
    (hld : cfg.load = some f) (hf : f k'' = Except.ok v) :
    load cfg t g k'' = (Except.ok v,
      internalPut cfg t { g with stats := (g.stats.loadTime 0).loadSuccess } k'' v) := by
  simp [load, hl, hld, hf]

theorem load_log_ext (cfg : CacheOptions K V) (t : Nat) (g : CacheState K V) (k'' : K) :
    ∃ d, (load cfg t g k'').2.evictionLog = g.evictionLog ++ d := by
  rcases hl : lookupKey k'' g.data with _ | e
  · rcases hld : cfg.load with _ | f
    · exact ⟨[], by rw [load_miss_eq cfg t g k'' hl hld]; simp⟩
    · rcases hf : f k'' with c | v
      · exact ⟨[], by rw [load_error_eq cfg t g k'' f c hl hld hf]; simp⟩
      · rw [load_ok_eq cfg t g k'' f v hl hld hf]
        exact internalPut_log_ext cfg t _ k'' v
  · exact ⟨[], by rw [load_hit_eq cfg t g k'' e hl]; simp⟩

theorem Get_miss_eq (cfg : CacheOptions K V) (t : Nat) (g : CacheState K V) (k'' : K)
    (hl : lookupKey k'' g.data = none) : Get cfg t g k'' = load cfg t g k'' := by
  simp [Get, hl]

theorem Get_expired_eq (cfg : CacheOptions K V) (t : Nat) (g : CacheState K V) (k'' : K)
    (e : CacheEntry K V) (hl : lookupKey k'' g.data = some e)
    (hx : isExpired cfg t e = true) :
    Get cfg t g k'' = load cfg t (evict cfg g k'' RemovalReason.expired) k'' := by
  simp [Get, hl, hx]

theorem Get_hit_eq (cfg : CacheOptions K V) (t : Nat) (g : CacheState K V) (k'' : K)
    (e : CacheEntry K V) (hl : lookupKey k'' g.data = some e)
    (hx : isExpired cfg t e = false) :
    Get cfg t g k'' = (Except.ok e.value,
      { g with data := touchLastRead k'' t g.data, stats := g.stats.hit }) := by
  simp [Get, hl, hx]

theorem Get_log_ext (cfg : CacheOptions K V) (t : Nat) (g : CacheState K V) (k'' : K) :
    ∃ d, (Get cfg t g k'').2.evictionLog = g.evictionLog ++ d := by
  rcases hl : lookupKey k'' g.data with _ | e
  · rw [Get_miss_eq cfg t g k'' hl]
    exact load_log_ext cfg t g k''
  · by_cases hx : isExpired cfg t e = true
    · rw [Get_expired_eq cfg t g k'' e hl hx]
      exact log_ext_trans (evict_log_ext cfg g k'' RemovalReason.expired)
        (load_log_ext cfg t _ k'')
    · rw [Get_hit_eq cfg t g k'' e hl (by simpa using hx)]
      exact ⟨[], by simp⟩

theorem step_log_ext (cfg : CacheOptions K V) (g : CacheState K V) (op : Op K V) :
    ∃ d, (step cfg g op).evictionLog = g.evictionLog ++ d := by
  cases op with
  | put t k v => exact Put_log_ext cfg t g k v
  | get t k => exact Get_log_ext cfg t g k
  | invalidate k ks => exact ⟨[], by simp [step, Invalidate]⟩
  | invalidateAll => exact ⟨[], by simp [step, InvalidateAll]⟩

theorem run_log_ext (cfg : CacheOptions K V) :
    ∀ (ops : List (Op K V)) (g : CacheState K V),
      ∃ d, (run cfg g ops).evictionLog = g.evictionLog ++ d := by
  intro ops
  induction ops with
  | nil => intro g; exact ⟨[], by simp [run]⟩
  | cons op rest ih =>
    intro g
    exact log_ext_trans (step_log_ext cfg g op) (ih (step cfg g op))

theorem evict_not_spare (cfg : CacheOptions K V) (g : CacheState K V) (k : K)
    (r : RemovalReason) (e : CacheEntry K V) (hg : lookupKey k g.data = some e) :
    ¬ SpareLog k g (evict cfg g k r) := by
  rintro ⟨d, hd, hk⟩
  rw [evict_evictionLog cfg g k r e hg] at hd
  have hdd : [(k, e.value, r)] = d := List.append_cancel_left hd
  exact hk (k, e.value, r) (by rw [← hdd]; simp) rfl

/-! ### Entry preservation along a trace -/

theorem internalPut_preserves (cfg : CacheOptions K V) (t : Nat) (g : CacheState K V)
    (k' : K) (v' : V) (k : K) (e : CacheEntry K V) (hk : k' ≠ k)
    (hg : lookupKey k g.data = some e)
    (hsp : SpareLog k g (internalPut cfg t g k' v')) :
    lookupKey k (internalPut cfg t g k' v').data = some e := by
  by_cases hc : 0 < cfg.maxSize ∧ cfg.maxSize ≤ (g.data.length : Int)
  · rcases hdata : g.data with _ | ⟨⟨k0, e0⟩, rest⟩
    · rw [hdata] at hg
      simp [lookupKey] at hg
    · have heq := internalPut_at_cap_eq cfg t g k' v' hc k0 e0 rest hdata
      rw [heq] at hsp ⊢
      show lookupKey k (assocPut k' ⟨k', v', t, t⟩
        (evict cfg g k0 RemovalReason.size).data) = some e
      rw [lookupKey_assocPut_ne k k' ⟨k', v', t, t⟩ _ (Ne.symm hk)]
      have hk0 : ¬ k0 = k := by
        intro hc0
        subst hc0
        have hlk0 : lookupKey k0 g.data = some e0 := by rw [hdata]; simp [lookupKey]
        exact evict_not_spare cfg g k0 RemovalReason.size e0 hlk0 hsp
      rw [lookupKey_evict_ne cfg g k k0 RemovalReason.size (fun h => hk0 h.symm)]
      exact hg
  · rw [internalPut_no_evict cfg t g k' v' hc]
    show lookupKey k (assocPut k' ⟨k', v', t, t⟩ g.data) = some e
    rw [lookupKey_assocPut_ne k k' ⟨k', v', t, t⟩ g.data (Ne.symm hk)]
    exact hg

theorem foldl_evictIfExpired_preserves (cfg : CacheOptions K V) (t : Nat) (k : K)
    (e : CacheEntry K V) :
    ∀ (ks : List K) (g : CacheState K V), lookupKey k g.data = some e →
      SpareLog k g (ks.foldl (evictIfExpired cfg t) g) →
      lookupKey k (ks.foldl (evictIfExpired cfg t) g).data = some e := by
  intro ks
  induction ks with
  | nil =>
    intro g hg _
    simpa using hg
  | cons k0 rest ih =>
    intro g hg hsp
    obtain ⟨hsp1, hsp2⟩ := SpareLog.split k (evictIfExpired_log_ext cfg t g k0)
      (foldl_evictIfExpired_log_ext cfg t rest (evictIfExpired cfg t g k0)) hsp
    have hpres : lookupKey k (evictIfExpired cfg t g k0).data = some e := by
      by_cases hkk : k0 = k
      · subst hkk
        by_cases hx : isExpired cfg t e = true
        · exfalso
          rw [show evictIfExpired cfg t g k0 = evict cfg g k0 RemovalReason.expired by
            simp [evictIfExpired, hg, hx]] at hsp1
          exact evict_not_spare cfg g k0 RemovalReason.expired e hg hsp1
        · simp [evictIfExpired, hg, hx]
      · rcases h0 : lookupKey k0 g.data with _ | e0
        · simpa [evictIfExpired, h0] using hg
        · by_cases hx : isExpired cfg t e0 = true
          · rw [show evictIfExpired cfg t g k0 = evict cfg g k0 RemovalReason.expired by
              simp [evictIfExpired, h0, hx]]
            rw [lookupKey_evict_ne cfg g k k0 RemovalReason.expired (Ne.symm hkk)]
            exact hg
          · simpa [evictIfExpired, h0, hx] using hg
    show lookupKey k (rest.foldl (evictIfExpired cfg t) (evictIfExpired cfg t g k0)).data =
      some e
    exact ih (evictIfExpired cfg t g k0) hpres hsp2

theorem preWriteCleanup_preserves_spare (cfg : CacheOptions K V) (t : Nat) (g : CacheState K V)
    (k : K) (e : CacheEntry K V) (hg : lookupKey k g.data = some e)
    (hsp : SpareLog k g (preWriteCleanup cfg t g)) :
    lookupKey k (preWriteCleanup cfg t g).data = some e := by
  by_cases hb : 0 < cfg.backgroundEvictFrequency
  · rw [show preWriteCleanup cfg t g = g from by simp [preWriteCleanup, hb]]
    exact hg
  · rw [show preWriteCleanup cfg t g = sweepExpired cfg t g from by
      simp [preWriteCleanup, hb]] at hsp ⊢
    exact foldl_evictIfExpired_preserves cfg t k e (g.data.map Prod.fst) g hg hsp

theorem Put_preserves (cfg : CacheOptions K V) (t : Nat) (g : CacheState K V)
    (k' : K) (v' : V) (k : K) (e : CacheEntry K V)
    (hg : lookupKey k g.data = some e)
    (hsp : SpareLog k g (Put cfg t g k' v')) :
    lookupKey k (Put cfg t g k' v').data = some e := by
  rcases hk' : lookupKey k' (preWriteCleanup cfg t g).data with _ | e''
  · rw [Put_absent_eq cfg t g k' v' hk'] at hsp ⊢
    obtain ⟨hsp1, hsp2⟩ := SpareLog.split k (preWriteCleanup_log_ext cfg t g)
      (internalPut_log_ext cfg t _ k' v') hsp
    have hpre := preWriteCleanup_preserves_spare cfg t g k e hg hsp1
    have hkne : k' ≠ k := by
      intro hc
      subst hc
      rw [hk'] at hpre
      exact Option.noConfusion hpre
    exact internalPut_preserves cfg t _ k' v' k e hkne hpre hsp2
  · rw [Put_present_eq cfg t g k' v' e'' hk'] at hsp ⊢
    obtain ⟨hsp1, hsp23⟩ := SpareLog.split k (preWriteCleanup_log_ext cfg t g)
      (log_ext_trans (evict_log_ext cfg _ k' RemovalReason.replaced)
        (internalPut_log_ext cfg t _ k' v')) hsp
    obtain ⟨hsp2, hsp3⟩ := SpareLog.split k (evict_log_ext cfg _ k' RemovalReason.replaced)
      (internalPut_log_ext cfg t _ k' v') hsp23
    have hpre := preWriteCleanup_preserves_spare cfg t g k e hg hsp1
    have hkne : k' ≠ k := by
      intro hc
      subst hc
      exact evict_not_spare cfg _ k' RemovalReason.replaced e'' hk' hsp2
    have hev : lookupKey k (evict cfg (preWriteCleanup cfg t g) k'
        RemovalReason.replaced).data = some e := by
      rw [lookupKey_evict_ne cfg _ k k' RemovalReason.replaced (Ne.symm hkne)]
      exact hpre
    exact internalPut_preserves cfg t _ k' v' k e hkne hev hsp3

theorem load_preserves (cfg : CacheOptions K V) (t : Nat) (g : CacheState K V)
    (k'' k : K) (e : CacheEntry K V) (hg : lookupKey k g.data = some e)
    (hsp : SpareLog k g (load cfg t g k'').2) :
    lookupKey k (load cfg t g k'').2.data = some e := by
  rcases hl : lookupKey k'' g.data with _ | e'
  · have hkne : k'' ≠ k := by
      intro hc
      subst hc
      rw [hl] at hg
      exact Option.noConfusion hg
    rcases hld : cfg.load with _ | f
    · rw [load_miss_eq cfg t g k'' hl hld]
      exact hg
    · rcases hf : f k'' with c | v
      · rw [load_error_eq cfg t g k'' f c hl hld hf]
        exact hg
      · rw [load_ok_eq cfg t g k'' f v hl hld hf] at hsp ⊢
        exact internalPut_preserves cfg t _ k'' v k e hkne hg hsp
  · rw [load_hit_eq cfg t g k'' e' hl]
    exact hg

theorem Get_preserves (cfg : CacheOptions K V) (t : Nat) (g : CacheState K V)
    (k'' k : K) (e : CacheEntry K V) (hg : lookupKey k g.data = some e)
    (hsp : SpareLog k g (Get cfg t g k'').2) :
    ∃ e', lookupKey k (Get cfg t g k'').2.data = some e' ∧ e'.value = e.value := by
  rcases hl : lookupKey k'' g.data with _ | e0
  · rw [Get_miss_eq cfg t g k'' hl] at hsp ⊢
    exact ⟨e, load_preserves cfg t g k'' k e hg hsp, rfl⟩
  · by_cases hx : isExpired cfg t e0 = true
    · rw [Get_expired_eq cfg t g k'' e0 hl hx] at hsp ⊢
      obtain ⟨hsp1, hsp2⟩ := SpareLog.split k (evict_log_ext cfg g k'' RemovalReason.expired)
        (load_log_ext cfg t _ k'') hsp
      have hkne : k'' ≠ k := by
        intro hc
        subst hc
        exact evict_not_spare cfg g k'' RemovalReason.expired e0 hl hsp1
      have hev : lookupKey k (evict cfg g k'' RemovalReason.expired).data = some e := by
        rw [lookupKey_evict_ne cfg g k k'' RemovalReason.expired (Ne.symm hkne)]
        exact hg
      exact ⟨e, load_preserves cfg t _ k'' k e hev hsp2, rfl⟩
    · rw [Get_hit_eq cfg t g k'' e0 hl (by simpa using hx)]
      by_cases hkk : k'' = k
      · subst hkk
        refine ⟨{ e with lastRead := t }, ?_, rfl⟩
        show lookupKey k'' (touchLastRead k'' t g.data) = some { e with lastRead := t }
        rw [lookupKey_touchLastRead_self k'' t g.data, hg]
        rfl
      · refine ⟨e, ?_, rfl⟩
        show lookupKey k (touchLastRead k'' t g.data) = some e
        rw [lookupKey_touchLastRead_ne k k'' t g.data (Ne.symm hkk)]
        exact hg

theorem Invalidate_preserves (g : CacheState K V) (k0 : K) (ks : List K) (k : K)
    (e : CacheEntry K V) (hg : lookupKey k g.data = some e)
    (hne : k0 ≠ k) (hnin : k ∉ ks) :
    lookupKey k (Invalidate g k0 ks).data = some e := by
  show lookupKey k (ks.foldl (fun d' k' => eraseKey k' d') (eraseKey k0 g.data)) = some e
  rw [lookupKey_foldl_eraseKey, if_neg hnin, lookupKey_eraseKey_ne k k0 g.data (Ne.symm hne)]
  exact hg

theorem step_preserves (cfg : CacheOptions K V) (k : K) (op : Op K V)
    (g : CacheState K V) (e : CacheEntry K V)
    (hg : lookupKey k g.data = some e) (hop : opSparesKey k op)
    (hsp : SpareLog k g (step cfg g op)) :
    ∃ e', lookupKey k (step cfg g op).data = some e' ∧ e'.value = e.value := by
  cases op with
  | put t k' v' => exact ⟨e, Put_preserves cfg t g k' v' k e hg hsp, rfl⟩
  | get t k'' => exact Get_preserves cfg t g k'' k e hg hsp
  | invalidate k0 ks =>
    obtain ⟨h1, h2⟩ := hop
    exact ⟨e, Invalidate_preserves g k0 ks k e hg h1 h2, rfl⟩
  | invalidateAll => exact hop.elim

theorem run_preserves (cfg : CacheOptions K V) (k : K) :
    ∀ (ops : List (Op K V)) (g : CacheState K V) (e : CacheEntry K V),
      lookupKey k g.data = some e →
      (∀ op ∈ ops, opSparesKey k op) →
      SpareLog k g (run cfg g ops) →
      ∃ e', lookupKey k (run cfg g ops).data = some e' ∧ e'.value = e.value := by
  intro ops
  induction ops with
  | nil =>
    intro g e hg _ _
    exact ⟨e, by simpa [run] using hg, rfl⟩
  | cons op rest ih =>
    intro g e hg hops hsp
    obtain ⟨hsp1, hsp2⟩ := SpareLog.split k (step_log_ext cfg g op)
      (run_log_ext cfg rest (step cfg g op)) hsp
    obtain ⟨e1, hg1, hv1⟩ := step_preserves cfg k op g e hg (hops op (by simp)) hsp1
    obtain ⟨e2, hg2, hv2⟩ := ih (step cfg g op) e1 hg1
      (fun o ho => hops o (by simp [ho])) hsp2
    exact ⟨e2, hg2, by rw [hv2, hv1]⟩

/-! ### Claim C1 -/

/-- C1: after `Put k v` at `t0`, a later `Get k` at `t1` returns `v` with no
error, provided that in between no operation explicitly invalidated `k` (and
no `InvalidateAll` ran), no eviction of `k` was logged — so `k` was not
replaced by another put, expired, or size-evicted in the meantime — and the
entry for `k` is not expired at the time of the read. -/
theorem c1_put_then_get (cfg : CacheOptions K V) (g0 : CacheState K V) (k : K) (v : V)
    (t0 t1 : Nat) (ops : List (Op K V))
    (hops : ∀ op ∈ ops, opSparesKey k op)
    (hlog : ∀ x ∈ (run cfg (Put cfg t0 g0 k v) ops).evictionLog.drop
        (Put cfg t0 g0 k v).evictionLog.length, x.1 ≠ k)
    (hexp : ∀ e, lookupKey k (run cfg (Put cfg t0 g0 k v) ops).data = some e →
        isExpired cfg t1 e = false) :
    (Get cfg t1 (run cfg (Put cfg t0 g0 k v) ops) k).1 = Except.ok v := by
  have hput : lookupKey k (Put cfg t0 g0 k v).data = some ⟨k, v, t0, t0⟩ :=
    lookupKey_internalPut_self cfg t0 _ k v
  obtain ⟨d, hd⟩ := run_log_ext cfg ops (Put cfg t0 g0 k v)
  have hspare : SpareLog k (Put cfg t0 g0 k v) (run cfg (Put cfg t0 g0 k v) ops) := by
    refine ⟨d, hd, ?_⟩
    intro x hx
    apply hlog
    rw [hd, List.drop_left]
    exact hx
  obtain ⟨e', hge, hve⟩ := run_preserves cfg k ops (Put cfg t0 g0 k v) ⟨k, v, t0, t0⟩
    hput hops hspare
  have hnx := hexp e' hge
  rw [Get_hit_eq cfg t1 _ k e' hge hnx, hve]

/-- Witness for C1 at a concrete input (with no intermediate operations). -/
theorem c1_put_then_get_witness :
    (Get noLoaderOptions 5
      (run noLoaderOptions (Put noLoaderOptions 0 (emptyState Nat Nat) 1 2) []) 1).1 =
      Except.ok 2 :=
  c1_put_then_get noLoaderOptions (emptyState Nat Nat) 1 2 0 5 []
    (by intro op h; cases h)
    (by decide)
    (fun e he => by
      have h2 : some (⟨1, 2, 0, 0⟩ : CacheEntry Nat Nat) = some e := he
      cases h2
      rfl)

/-! ### Claim C3 -/

/-- C3: with `MaxSize = N > 0` configured on one shard (and expiry disabled),
writing `N + 1` distinct keys into an empty cache logs exactly one eviction in
total, and its reason is `SIZE`; after every prefix of the writes the map
holds at most `N` entries. -/
theorem c3_max_size (cfg : CacheOptions K V) (t : Nat) (N : Nat) (hN : 0 < N)
    (hw : cfg.expireAfterWrite = 0) (hr : cfg.expireAfterRead = 0)
    (hmax : cfg.maxSize = (N : Int)) (kvs : List (K × V))
    (hlen : kvs.length = N + 1) (hnodup : (kvs.map Prod.fst).Nodup) :
    (putAll cfg t (emptyState K V) kvs).evictionLog.length = 1 ∧
    ((putAll cfg t (emptyState K V) kvs).evictionLog.filter
      (fun x => x.2.2 = RemovalReason.size)).length = 1 ∧
    ∀ i, (putAll cfg t (emptyState K V) (kvs.take i)).data.length ≤ N := by
  have hne : kvs ≠ [] := by intro h; rw [h] at hlen; simp at hlen
  obtain ⟨init, p', hsplit⟩ : ∃ init p', kvs = init ++ [p'] :=
    ⟨kvs.dropLast, kvs.getLast hne, (List.dropLast_append_getLast hne).symm⟩
  subst hsplit
  have hinitlen : init.length = N := by
    simp only [List.length_append, List.length_cons, List.length_nil] at hlen
    omega
  rw [List.map_append, List.nodup_append] at hnodup
  obtain ⟨hnodup1, _, hdisj⟩ := hnodup
  have hfreshlast : p'.1 ∉ init.map Prod.fst := by
    intro hmem
    exact hdisj hmem (by simp)
  obtain ⟨i0, irest, hinit⟩ : ∃ i0 irest, init = i0 :: irest := by
    cases init with
    | nil => simp at hinitlen; omega
    | cons a b => exact ⟨a, b, rfl⟩
  subst hinit
  have hinitlen' : irest.length + 1 = N := by simpa using hinitlen
  rw [List.map_cons, List.nodup_cons] at hnodup1
  obtain ⟨hi0notin, hnodupirest⟩ := hnodup1
  have hrun : putAll cfg t (emptyState K V) (i0 :: irest) =
      (⟨entriesOf t (i0 :: irest), InternalStats.empty, [], []⟩ : CacheState K V) := by
    rw [putAll_fresh cfg t N hw hr hmax (i0 :: irest) (emptyState K V)
      (fun p _ => rfl) (by rw [List.map_cons, List.nodup_cons]; exact ⟨hi0notin, hnodupirest⟩)
      (by simp [emptyState]; omega)]
    rfl
  have hrestlk : lookupKey i0.1 (entriesOf t irest) = none :=
    lookupKey_entriesOf_none t irest i0.1 hi0notin
  have habslast : lookupKey p'.1 (entriesOf t (i0 :: irest)) = none :=
    lookupKey_entriesOf_none t (i0 :: irest) p'.1 hfreshlast
  have hfinal := Put_at_capacity cfg t N hN hw hr hmax
    (⟨entriesOf t (i0 :: irest), InternalStats.empty, [], []⟩ : CacheState K V)
    i0.1 ⟨i0.1, i0.2, t, t⟩ (entriesOf t irest) rfl
    (by simp [entriesOf_length]; omega) hrestlk p'.1 p'.2 habslast
  have hwhole : putAll cfg t (emptyState K V) ((i0 :: irest) ++ [p']) =
      Put cfg t (⟨entriesOf t (i0 :: irest), InternalStats.empty, [], []⟩ : CacheState K V)
        p'.1 p'.2 := by
    rw [putAll_append, hrun]
    rfl
  refine ⟨?_, ?_, ?_⟩
  · rw [hwhole, hfinal.2]
    rfl
  · rw [hwhole, hfinal.2]
    simp
  · intro i
    by_cases hi : i ≤ N
    · have htake : ((i0 :: irest) ++ [p']).take i = (i0 :: irest).take i :=
        List.take_append_of_le_length (by simp only [List.length_cons]; omega)
      rw [htake]
      have hnoduptake : (((i0 :: irest).take i).map Prod.fst).Nodup := by
        rw [List.map_take]
        exact List.Nodup.sublist (List.take_sublist i _)
          (by rw [List.map_cons, List.nodup_cons]; exact ⟨hi0notin, hnodupirest⟩)
      have htlen : ((i0 :: irest).take i).length ≤ N := by
        rw [List.length_take]
        simp only [List.length_cons]
        omega
      rw [putAll_fresh cfg t N hw hr hmax ((i0 :: irest).take i) (emptyState K V)
        (fun p _ => rfl) hnoduptake (by simpa [emptyState] using htlen)]
      simpa [emptyState, entriesOf_length] using htlen
    · have htake : ((i0 :: irest) ++ [p']).take i = (i0 :: irest) ++ [p'] :=
        List.take_of_length_le (by simp only [List.length_append,
          List.length_cons, List.length_nil] at hlen ⊢; omega)
      rw [htake, hwhole]
      rw [show (Put cfg t
          (⟨entriesOf t (i0 :: irest), InternalStats.empty, [], []⟩ : CacheState K V)
          p'.1 p'.2).data = entriesOf t irest ++ [(p'.1, ⟨p'.1, p'.2, t, t⟩)] from hfinal.1]
      simp only [List.length_append, List.length_cons, List.length_nil, entriesOf_length]
      simp only [List.length_cons] at hinitlen
      omega

/-- Witness for C3 at a concrete input: `N = 2`, three distinct keys. -/
theorem c3_max_size_witness :
    (putAll (⟨0, 0, none, 2, 0, 0, none, 0⟩ : CacheOptions Nat Nat) 0 (emptyState Nat Nat)
        [(1, 10), (2, 20), (3, 30)]).evictionLog.length = 1 ∧
    ((putAll (⟨0, 0, none, 2, 0, 0, none, 0⟩ : CacheOptions Nat Nat) 0 (emptyState Nat Nat)
        [(1, 10), (2, 20), (3, 30)]).evictionLog.filter
      (fun x => x.2.2 = RemovalReason.size)).length = 1 ∧
    ∀ i, (putAll (⟨0, 0, none, 2, 0, 0, none, 0⟩ : CacheOptions Nat Nat) 0 (emptyState Nat Nat)
        ([(1, 10), (2, 20), (3, 30)].take i)).data.length ≤ 2 :=
  c3_max_size ⟨0, 0, none, 2, 0, 0, none, 0⟩ 0 2 (by decide) rfl rfl rfl
    [(1, 10), (2, 20), (3, 30)] rfl (by decide)

/-! ### Claim C4 -/

/-- C4: with write-expiry `D` and a controllable clock, `Put k v` at `t0` into
an empty cache followed by `Get k` at `t0 + D + eps` (`eps > 0`, no loader)
returns `ErrKeyNotFound`, and exactly one removal notification `⟨k, v,
EXPIRED⟩` is constructed and delivered to every registered listener. -/
theorem c4_expire_after_write (cfg : CacheOptions K V) (D eps t0 : Nat) (k : K) (v : V)
    (hD : cfg.expireAfterWrite = D) (hD0 : 0 < D) (hr : cfg.expireAfterRead = 0)
    (hload : cfg.load = none) (hlist : 0 < cfg.listenerCount) (heps : 0 < eps) :
    (Get cfg (t0 + D + eps) (Put cfg t0 (emptyState K V) k v) k).1 =
        Except.error CacheError.keyNotFound ∧
    (Get cfg (t0 + D + eps) (Put cfg t0 (emptyState K V) k v) k).2.notifications =
        [⟨k, v, RemovalReason.expired⟩] ∧
    (Get cfg (t0 + D + eps) (Put cfg t0 (emptyState K V) k v) k).2.evictionLog =
        [(k, v, RemovalReason.expired)] ∧
    lookupKey k (Get cfg (t0 + D + eps) (Put cfg t0 (emptyState K V) k v) k).2.data = none := by
  have hpre : preWriteCleanup cfg t0 (emptyState K V) = emptyState K V := by
    unfold preWriteCleanup sweepExpired
    split <;> rfl
  have hcond : ¬ (0 < cfg.maxSize ∧ cfg.maxSize ≤ (((emptyState K V).data).length : Int)) := by
    rintro ⟨h1, h2⟩
    simp [emptyState] at h2
    omega
  have hput : Put cfg t0 (emptyState K V) k v =
      (⟨[(k, ⟨k, v, t0, t0⟩)], InternalStats.empty, [], []⟩ : CacheState K V) := by
    rw [Put_absent_eq cfg t0 (emptyState K V) k v (by rw [hpre]; rfl), hpre,
      internalPut_no_evict cfg t0 (emptyState K V) k v hcond]
    rfl
  have hex : isExpired cfg (t0 + D + eps) (⟨k, v, t0, t0⟩ : CacheEntry K V) = true := by
    have h1 : t0 + D < t0 + D + eps := by omega
    simp [isExpired, expiresAfterRead, expiresAfterWrite, hr, hD, hD0, h1]
  have hl0 : ¬ cfg.listenerCount = 0 := by omega
  have hGet : Get cfg (t0 + D + eps) (Put cfg t0 (emptyState K V) k v) k =
      (Except.error CacheError.keyNotFound,
        ⟨[], (InternalStats.empty.eviction).miss,
          [(k, v, RemovalReason.expired)], [⟨k, v, RemovalReason.expired⟩]⟩) := by
    rw [hput]
    simp [Get, lookupKey, hex, evict, eraseKey, load, hload, hl0]
  exact ⟨by rw [hGet], by rw [hGet], by rw [hGet], by rw [hGet]; rfl⟩

/-- Witness for C4 at a concrete input. -/
theorem c4_expire_after_write_witness :
    (Get writeExpiryOptions (0 + 5 + 1) (Put writeExpiryOptions 0 (emptyState Nat Nat) 1 10) 1).1 =
        Except.error CacheError.keyNotFound ∧
    (Get writeExpiryOptions (0 + 5 + 1)
        (Put writeExpiryOptions 0 (emptyState Nat Nat) 1 10) 1).2.notifications =
        [⟨1, 10, RemovalReason.expired⟩] ∧
    (Get writeExpiryOptions (0 + 5 + 1)
        (Put writeExpiryOptions 0 (emptyState Nat Nat) 1 10) 1).2.evictionLog =
        [(1, 10, RemovalReason.expired)] ∧
    lookupKey 1 (Get writeExpiryOptions (0 + 5 + 1)
        (Put writeExpiryOptions 0 (emptyState Nat Nat) 1 10) 1).2.data = none :=
  c4_expire_after_write writeExpiryOptions 5 1 0 1 10 rfl (by decide) rfl rfl
    (by decide) (by decide)

/-! ### Claim C5 -/

/-- C5: `Put` over a key that already holds a (non-expired) entry with value
`v0` first evicts the old entry with reason `REPLACED`, delivering a
notification carrying `v0` to every registered listener, and only then inserts
the new entry: at the intermediate state the notification is already recorded
while the key is unbound, and a subsequent `Get` returns the new value `v1`. -/
theorem c5_replaced_before_visible (cfg : CacheOptions K V) (t : Nat) (g : CacheState K V)
    (k : K) (v0 v1 : V) (e : CacheEntry K V)
    (hg : lookupKey k g.data = some e) (hv : e.value = v0)
    (hexp : isExpired cfg t e = false) (hlist : 0 < cfg.listenerCount) :
    Put cfg t g k v1 =
      internalPut cfg t (evict cfg (preWriteCleanup cfg t g) k RemovalReason.replaced) k v1 ∧
    (evict cfg (preWriteCleanup cfg t g) k RemovalReason.replaced).notifications =
      (preWriteCleanup cfg t g).notifications ++ [⟨k, v0, RemovalReason.replaced⟩] ∧
    lookupKey k (evict cfg (preWriteCleanup cfg t g) k RemovalReason.replaced).data = none ∧
    (Get cfg t (Put cfg t g k v1) k).1 = Except.ok v1 := by
  have hpre : lookupKey k (preWriteCleanup cfg t g).data = some e :=
    preWriteCleanup_preserves cfg t g k e hg hexp
  have hput := Put_present_eq cfg t g k v1 e hpre
  refine ⟨hput, ?_, ?_, ?_⟩
  · rw [evict_notifications_pos cfg _ k RemovalReason.replaced e hpre hlist, hv]
  · rw [evict_data cfg _ k RemovalReason.replaced e hpre]
    exact lookupKey_eraseKey_self k _
  · rw [hput]
    have hl := lookupKey_internalPut_self cfg t
      (evict cfg (preWriteCleanup cfg t g) k RemovalReason.replaced) k v1
    simp [Get, hl, isExpired_fresh]

/-- Witness for C5 at a concrete input. -/
theorem c5_replaced_before_visible_witness :
    Put writeExpiryOptions 3 sampleState 1 20 =
      internalPut writeExpiryOptions 3
        (evict writeExpiryOptions (preWriteCleanup writeExpiryOptions 3 sampleState) 1
          RemovalReason.replaced) 1 20 ∧
    (evict writeExpiryOptions (preWriteCleanup writeExpiryOptions 3 sampleState) 1
        RemovalReason.replaced).notifications =
      (preWriteCleanup writeExpiryOptions 3 sampleState).notifications ++
        [⟨1, 10, RemovalReason.replaced⟩] ∧
    lookupKey 1 (evict writeExpiryOptions (preWriteCleanup writeExpiryOptions 3 sampleState) 1
        RemovalReason.replaced).data = none ∧
    (Get writeExpiryOptions 3 (Put writeExpiryOptions 3 sampleState 1 20) 1).1 =
      Except.ok 20 :=
  c5_replaced_before_visible writeExpiryOptions 3 sampleState 1 10 20 ⟨1, 10, 0, 0⟩
    rfl rfl (by decide) (by decide)

/-! ### Claim C8 -/

theorem shardIdx_spec (s : ShardedCache K V) (k : K) (hh : 0 ≤ s.hashCode k)
    (hn : 0 < s.shardCount) :
    (shardIdx s k : Int) = s.hashCode k % (s.shardCount : Int) ∧
    shardIdx s k < s.shardCount := by
  have hb : (0 : Int) < (s.shardCount : Int) := by exact_mod_cast hn
  have ht : (s.hashCode k).tmod (s.shardCount : Int) = s.hashCode k % (s.shardCount : Int) :=
    Int.tmod_eq_emod hh (le_of_lt hb)
  have h0 : 0 ≤ s.hashCode k % (s.shardCount : Int) := Int.emod_nonneg _ (ne_of_gt hb)
  have h1 : s.hashCode k % (s.shardCount : Int) < (s.shardCount : Int) :=
    Int.emod_lt_of_pos _ hb
  unfold shardIdx
  rw [ht]
  constructor
  · rw [Int.toNat_of_nonneg h0]
  · omega

theorem shardedGet_shards (cfg : CacheOptions K V) (t : Nat) (s : ShardedCache K V)
    (k : K) (j : Nat) :
    (shardedGet cfg t s k).2.shards j =
      if j = shardIdx s k then (Get cfg t (s.shards (shardIdx s k)) k).2 else s.shards j := by
  simp [shardedGet, Function.update_apply]

theorem shardedPut_shards (cfg : CacheOptions K V) (t : Nat) (s : ShardedCache K V)
    (k : K) (v : V) (j : Nat) :
    (shardedPut cfg t s k v).shards j =
      if j = shardIdx s k then Put cfg t (s.shards (shardIdx s k)) k v else s.shards j := by
  simp [shardedPut, Function.update_apply]

theorem shardedInvalidateOne_shards (s : ShardedCache K V) (k : K) (j : Nat) :
    (shardedInvalidateOne s k).shards j =
      if j = shardIdx s k then Invalidate (s.shards (shardIdx s k)) k [] else s.shards j := by
  simp [shardedInvalidateOne, Function.update_apply]

theorem shardIdx_congr (s s' : ShardedCache K V) (k : K)
    (hh : s'.hashCode = s.hashCode) (hn : s'.shardCount = s.shardCount) :
    shardIdx s' k = shardIdx s k := by
  unfold shardIdx
  rw [hh, hn]

theorem foldl_shardedInvalidateOne_shards (s0 : ShardedCache K V) :
    ∀ (ks : List K) (s : ShardedCache K V),
      s.hashCode = s0.hashCode → s.shardCount = s0.shardCount → ∀ j,
      (ks.foldl shardedInvalidateOne s).shards j =
        (ks.filter (fun x => shardIdx s0 x = j)).foldl
          (fun d x => Invalidate d x []) (s.shards j) := by
  intro ks
  induction ks with
  | nil => intro s _ _ j; rfl
  | cons k0 rest ih =>
    intro s hh hn j
    have hidx : shardIdx s k0 = shardIdx s0 k0 := shardIdx_congr s0 s k0 hh hn
    have hstep := ih (shardedInvalidateOne s k0) hh hn j
    simp only [List.foldl_cons, List.filter_cons]
    rw [hstep, shardedInvalidateOne_shards s k0 j, hidx]
    by_cases hj : shardIdx s0 k0 = j
    · subst hj
      simp
    · rw [if_neg (fun hc => hj hc.symm)]
      simp [hj]

/-- C8: on a sharded cache with more than one shard, a fixed (non-negative)
hash function routes every operation for key `k` to the engine at index
`hashCode k % shardCount`: `Get` reads and writes back only that shard, `Put`
rewrites only that shard, routing is unchanged by the operations themselves
(so repeated calls for the same key hit the same shard), and each key passed
to `Invalidate` is routed independently — shard `j` receives exactly the
single-key invalidations of the keys that hash to `j`. -/
theorem c8_sharded_routing (cfg : CacheOptions K V) (t : Nat) (s : ShardedCache K V)
    (k : K) (v : V) (ks : List K)
    (hn : 1 < s.shardCount) (hh : ∀ x, 0 ≤ s.hashCode x) :
    ((shardIdx s k : Int) = s.hashCode k % (s.shardCount : Int) ∧
      shardIdx s k < s.shardCount) ∧
    (shardedGet cfg t s k).1 = (Get cfg t (s.shards (shardIdx s k)) k).1 ∧
    (∀ j, (shardedGet cfg t s k).2.shards j =
      if j = shardIdx s k then (Get cfg t (s.shards (shardIdx s k)) k).2 else s.shards j) ∧
    (∀ j, (shardedPut cfg t s k v).shards j =
      if j = shardIdx s k then Put cfg t (s.shards (shardIdx s k)) k v else s.shards j) ∧
    (∀ q, shardIdx (shardedPut cfg t s k v) q = shardIdx s q ∧
      shardIdx (shardedGet cfg t s k).2 q = shardIdx s q ∧
      shardIdx (shardedInvalidate s k ks) q = shardIdx s q) ∧
    (∀ j, (shardedInvalidate s k ks).shards j =
      ((k :: ks).filter (fun x => shardIdx s x = j)).foldl
        (fun d x => Invalidate d x []) (s.shards j)) := by
  refine ⟨shardIdx_spec s k (hh k) (by omega), rfl,
    shardedGet_shards cfg t s k, shardedPut_shards cfg t s k v, ?_, ?_⟩
  · intro q
    refine ⟨rfl, rfl, ?_⟩
    apply shardIdx_congr
    · show ((k :: ks).foldl shardedInvalidateOne s).hashCode = s.hashCode
      generalize s = s1
      induction (k :: ks) generalizing s1 with
      | nil => rfl
      | cons a b ihk => exact ihk (shardedInvalidateOne s1 a)
    · show ((k :: ks).foldl shardedInvalidateOne s).shardCount = s.shardCount
      generalize s = s1
      induction (k :: ks) generalizing s1 with
      | nil => rfl
      | cons a b ihk => exact ihk (shardedInvalidateOne s1 a)
  · intro j
    exact foldl_shardedInvalidateOne_shards s (k :: ks) s rfl rfl j

/-- A concrete three-shard cache with the identity hash, for the C8 witness. -/
def sampleSharded : ShardedCache Nat Nat := ⟨3, fun x => (x : Int), fun _ => emptyState Nat Nat⟩

/-- Witness for C8 at a concrete input: three shards, identity hash. -/
theorem c8_sharded_routing_witness :
    (((shardIdx sampleSharded 5 : Int) =
        sampleSharded.hashCode 5 % (sampleSharded.shardCount : Int) ∧
      shardIdx sampleSharded 5 < sampleSharded.shardCount) ∧
    (shardedGet noLoaderOptions 0 sampleSharded 5).1 =
      (Get noLoaderOptions 0 (sampleSharded.shards (shardIdx sampleSharded 5)) 5).1 ∧
    (∀ j, (shardedGet noLoaderOptions 0 sampleSharded 5).2.shards j =
      if j = shardIdx sampleSharded 5 then
        (Get noLoaderOptions 0 (sampleSharded.shards (shardIdx sampleSharded 5)) 5).2
      else sampleSharded.shards j) ∧
    (∀ j, (shardedPut noLoaderOptions 0 sampleSharded 5 7).shards j =
      if j = shardIdx sampleSharded 5 then
        Put noLoaderOptions 0 (sampleSharded.shards (shardIdx sampleSharded 5)) 5 7
      else sampleSharded.shards j) ∧
    (∀ q, shardIdx (shardedPut noLoaderOptions 0 sampleSharded 5 7) q =
        shardIdx sampleSharded q ∧
      shardIdx (shardedGet noLoaderOptions 0 sampleSharded 5).2 q = shardIdx sampleSharded q ∧
      shardIdx (shardedInvalidate sampleSharded 5 [4, 9]) q = shardIdx sampleSharded q) ∧
    (∀ j, (shardedInvalidate sampleSharded 5 [4, 9]).shards j =
      (((5 : Nat) :: [4, 9]).filter (fun x => shardIdx sampleSharded x = j)).foldl
        (fun d x => Invalidate d x []) (sampleSharded.shards j))) :=
  c8_sharded_routing noLoaderOptions 0 sampleSharded 5 7 [4, 9]
    (by decide) (fun x => Int.natCast_nonneg x)

/-! ### Claim C9 -/

/-- C9: construction fails exactly for a negative shard count or for a shard
count greater than one with no hash-code function; every other combination of
options constructs successfully.  The failure is produced by `New` itself
(construction time), not deferred to first use. -/
theorem c9_construction_guard (o : CacheOptions K V) :
    (New o).isOk = false ↔
      (o.shardCount < 0 ∨ (1 < o.shardCount ∧ o.hashCodeFunc = none)) := by
  unfold New
  by_cases h1 : o.shardCount < 0
  · simp [h1, Except.isOk, Except.toBool]
  · by_cases h2 : o.shardCount = 0 ∨ o.shardCount = 1
    · have hn : ¬ 1 < o.shardCount := by rcases h2 with h2 | h2 <;> omega
      simp [h1, h2, Except.isOk, Except.toBool, hn]
    · have h2' : o.shardCount ≠ 0 ∧ o.shardCount ≠ 1 := by
        constructor <;> intro hc <;> exact h2 (by simp [hc])
      have h3 : 1 < o.shardCount := by omega
      cases hh : o.hashCodeFunc with
      | none => simp [h1, h2, hh, Except.isOk, Except.toBool, h3]
      | some f => simp [h1, h2, hh, Except.isOk, Except.toBool, h3]

/-- Witness for C9 at concrete inputs: a sharded configuration without a hash
function fails, and the default configuration succeeds. -/
theorem c9_construction_guard_witness :
    ((New (⟨0, 0, none, 0, 0, 4, none, 0⟩ : CacheOptions Nat Nat)).isOk = false ↔
      ((4 : Int) < 0 ∨ ((1 : Int) < 4 ∧ (none : Option (Nat → Int)) = none))) ∧
    ((New noLoaderOptions).isOk = false ↔
      (noLoaderOptions.shardCount < 0 ∨
        (1 < noLoaderOptions.shardCount ∧ noLoaderOptions.hashCodeFunc = none))) :=
  ⟨c9_construction_guard ⟨0, 0, none, 0, 0, 4, none, 0⟩, c9_construction_guard noLoaderOptions⟩

/-! ### Claim C10 -/

/-- C10: expiry comparisons are strict.  An entry written (and last read) at
`t0`, under a write-expiry (resp. read-expiry) duration `D > 0`, is not expired
when the clock reads exactly `t0 + D` — a `Get` at that instant is a hit
returning the value — and it is expired only at instants strictly after
`t0 + D`. -/
theorem c10_expiry_strict (cfgW cfgR : CacheOptions K V) (D t0 : Nat) (hD : 0 < D)
    (hw1 : cfgW.expireAfterWrite = D) (hw2 : cfgW.expireAfterRead = 0)
    (hr1 : cfgR.expireAfterRead = D) (hr2 : cfgR.expireAfterWrite = 0)
    (k : K) (v : V) (g : CacheState K V)
    (hg : lookupKey k g.data = some ⟨k, v, t0, t0⟩) :
    isExpired cfgW (t0 + D) ⟨k, v, t0, t0⟩ = false ∧
    isExpired cfgR (t0 + D) ⟨k, v, t0, t0⟩ = false ∧
    (∀ t, t0 + D < t → isExpired cfgW t ⟨k, v, t0, t0⟩ = true) ∧
    (∀ t, t0 + D < t → isExpired cfgR t ⟨k, v, t0, t0⟩ = true) ∧
    (Get cfgW (t0 + D) g k).1 = Except.ok v ∧
    (Get cfgW (t0 + D) g k).2.stats = g.stats.hit ∧
    (Get cfgR (t0 + D) g k).1 = Except.ok v ∧
    (Get cfgR (t0 + D) g k).2.stats = g.stats.hit := by
  have hWexp : isExpired cfgW (t0 + D) ⟨k, v, t0, t0⟩ = false := by
    simp [isExpired, expiresAfterRead, expiresAfterWrite, hw1, hw2]
  have hRexp : isExpired cfgR (t0 + D) ⟨k, v, t0, t0⟩ = false := by
    simp [isExpired, expiresAfterRead, expiresAfterWrite, hr1, hr2]
  refine ⟨hWexp, hRexp, ?_, ?_, ?_, ?_, ?_, ?_⟩
  · intro t ht
    simp [isExpired, expiresAfterRead, expiresAfterWrite, hw1, hw2, hD, ht]
  · intro t ht
    simp [isExpired, expiresAfterRead, expiresAfterWrite, hr1, hr2, hD, ht]
  · simp [Get, hg, hWexp]
  · simp [Get, hg, hWexp]
  · simp [Get, hg, hRexp]
  · simp [Get, hg, hRexp]

/-- Witness for C10 at a concrete input. -/
theorem c10_expiry_strict_witness :
    isExpired writeExpiryOptions (0 + 5) ⟨1, 10, 0, 0⟩ = false ∧
    isExpired readExpiryOptions (0 + 5) ⟨1, 10, 0, 0⟩ = false ∧
    (∀ t, 0 + 5 < t → isExpired writeExpiryOptions t ⟨1, 10, 0, 0⟩ = true) ∧
    (∀ t, 0 + 5 < t → isExpired readExpiryOptions t ⟨1, 10, 0, 0⟩ = true) ∧
    (Get writeExpiryOptions (0 + 5) sampleState 1).1 = Except.ok 10 ∧
    (Get writeExpiryOptions (0 + 5) sampleState 1).2.stats = sampleState.stats.hit ∧
    (Get readExpiryOptions (0 + 5) sampleState 1).1 = Except.ok 10 ∧
    (Get readExpiryOptions (0 + 5) sampleState 1).2.stats = sampleState.stats.hit :=
  c10_expiry_strict writeExpiryOptions readExpiryOptions 5 0 (by decide)
    rfl rfl rfl rfl 1 10 sampleState rfl

end LoadingCache
